import Mathlib

set_option maxHeartbeats 1000000

/-
Verification development for the LearnWords vocabulary trainer
(src/word_app.py).  The scheduler, grading operations, answer matcher
and word extractor are shallowly embedded below; dates are modelled as day
numbers (Int), a stored last_review_date string is modelled by the sum
type DateVal (empty string, unparseable string, canonical parseable
date), and Python's random.sample / random.shuffle are modelled as
function parameters satisfying their documented contracts (sample is
deterministic given the date seed, shuffle returns a permutation).
-/

namespace WordApp

/-- Model of the stored last_review_date string: empty, unparseable, or a
parseable canonical date (day number). -/
inductive DateVal where
  | unset
  | malformed
  | valid (d : Int)
deriving DecidableEq, Repr

/-- Model of one word record (fields used by the core logic). -/
structure WordRec where
  review_count : Nat
  last_review : Option Int
  last_review_date : DateVal
  today_reviewed : Bool
deriving DecidableEq, Repr

/-- The store: Python dict word -> record, modelled as an association list
with (assumed where needed) distinct keys. -/
abbrev Store := List (String × WordRec)

/-- Keys of the store are pairwise distinct (Python dict invariant). -/
def keysNodup (s : Store) : Prop := (s.map Prod.fst).Nodup

/-- ebbinghaus_intervals.get(review_count, default_interval) with the table
3: 2, 4: 4, 5: 7, 6: 15 and default 30 (word_app.py lines 259-265). -/
def requiredInterval (rc : Nat) : Nat :=
  if rc = 3 then 2
  else if rc = 4 then 4
  else if rc = 5 then 7
  else if rc = 6 then 15
  else 30

/-- Due test for a mastered word (word_app.py lines 286-305): empty date is
due, unparseable date is due (the except branch), otherwise due iff
days_since_review >= required_interval. -/
def isDue (today : Int) (rc : Nat) (d : DateVal) : Bool :=
  match d with
  | .unset => true
  | .malformed => true
  | .valid last => decide ((requiredInterval rc : Int) ≤ today - last)

/-- Bucket of words with review_count == 0 (line 271). -/
def unreviewedNames (s : Store) : List String :=
  (s.filter (fun p => decide (p.2.review_count = 0))).map Prod.fst

/-- Bucket of words with 0 < review_count < 3 (line 276). -/
def reviewingNames (s : Store) : List String :=
  (s.filter (fun p =>
    decide (0 < p.2.review_count) && decide (p.2.review_count < 3))).map Prod.fst

/-- Mastered words, review_count >= 3 (line 283). -/
def masteredPairs (s : Store) : Store :=
  s.filter (fun p => decide (3 ≤ p.2.review_count))

/-- Names of the mastered words. -/
def masteredNames (s : Store) : List String :=
  (masteredPairs s).map Prod.fst

/-- Mastered words that are due today (lines 286-305). -/
def masteredDuePairs (s : Store) (today : Int) : Store :=
  s.filter (fun p =>
    decide (3 ≤ p.2.review_count) &&
    isDue today p.2.review_count p.2.last_review_date)

/-- Names of the mastered-due words. -/
def masteredDueNames (s : Store) (today : Int) : List String :=
  (masteredDuePairs s today).map Prod.fst

/-- Python string comparison: lexicographic on code points. -/
def charListLt : List Char → List Char → Bool
  | [], [] => false
  | [], _ :: _ => true
  | _ :: _, [] => false
  | a :: as, b :: bs =>
    if a.toNat < b.toNat then true
    else if b.toNat < a.toNat then false
    else charListLt as bs

/-- Python string comparison lifted to String. -/
def strLt (a b : String) : Bool := charListLt a.toList b.toList

/-- Comparison used by sorted(..., key=lambda w: (review_count, w)):
strict lexicographic order on the (review_count, word) pair.  Store keys
are distinct, so any correct sort for this order equals Python's. -/
def pairLt (a b : String × WordRec) : Bool :=
  decide (a.2.review_count < b.2.review_count) ||
  (decide (a.2.review_count = b.2.review_count) && strLt a.1 b.1)

/-- Insertion step of the sort. -/
def insertSorted (x : String × WordRec) : Store → Store
  | [] => [x]
  | y :: ys => if pairLt x y then x :: y :: ys else y :: insertSorted x ys

/-- Insertion sort by (review_count, word), modelling Python sorted. -/
def sortPairs : Store → Store
  | [] => []
  | x :: xs => insertSorted x (sortPairs xs)

/-- mastered_due_sorted of line 316, as names. -/
def masteredDueSortedNames (s : Store) (today : Int) : List String :=
  (sortPairs (masteredDuePairs s today)).map Prod.fst

/-- not_due of line 322: mastered words not in mastered_due. -/
def notDuePairs (s : Store) (today : Int) : Store :=
  (masteredPairs s).filter (fun p =>
    !((masteredDueNames s today).contains p.1))

/-- candidate_count = max(10, len(not_due_sorted) // 3) of line 329. -/
def candidateCountOf (s : Store) (today : Int) : Nat :=
  max 10 ((notDuePairs s today).length / 3)

/-- candidates = not_due_sorted[:candidate_count] of line 330, as names. -/
def candidatesOf (s : Store) (today : Int) : List String :=
  ((sortPairs (notDuePairs s today)).take (candidateCountOf s today)).map Prod.fst

/-- sample_count = min(10 - len(mastered_due), len(candidates)) of
lines 332-333. -/
def sampleCountOf (s : Store) (today : Int) : Nat :=
  min (10 - (masteredDueNames s today).length) (candidatesOf s today).length

/-- The guards of lines 320-323: backfill runs iff len(mastered_due) < 10,
mastered is nonempty and not_due is nonempty. -/
def doBackfill (s : Store) (today : Int) : Bool :=
  decide ((masteredDueNames s today).length < 10) &&
  !(masteredNames s).isEmpty && !(notDuePairs s today).isEmpty

/-- sampled of line 334; random.sample seeded by today's date string is
modelled by the sample parameter applied to today. -/
def backfillOf (s : Store) (today : Int)
    (sample : Int → List String → Nat → List String) : List String :=
  if doBackfill s today then
    sample today (candidatesOf s today) (sampleCountOf s today)
  else []

/-- Lookup of a record by key (Python self.words[word] access). -/
def findRec (s : Store) (w : String) : Option WordRec :=
  (s.find? (fun p => p.1 == w)).map Prod.snd

/-- Words marked completed during the classification loop (lines 273, 278,
298): a word with review_count < 3, or a due mastered word, whose stored
date equals today's date string. -/
def completedInit (s : Store) (today : Int) : List String :=
  (s.filter (fun p =>
    (decide (p.2.review_count < 3) ||
     (decide (3 ≤ p.2.review_count) &&
      isDue today p.2.review_count p.2.last_review_date)) &&
    (p.2.last_review_date == DateVal.valid today))).map Prod.fst

/-- Sampled words whose stored date equals today (lines 338-340). -/
def completedSampled (s : Store) (today : Int)
    (sample : Int → List String → Nat → List String) : List String :=
  (backfillOf s today sample).filter (fun w =>
    match findRec s w with
    | some r => r.last_review_date == DateVal.valid today
    | none => false)

/-- today_tasks before the final shuffle (lines 307-335): unreviewed, then
reviewing, then sorted mastered-due, then the backfill sample.  Appending
an empty sample models the skipped backfill branch. -/
def preTasks (s : Store) (today : Int)
    (sample : Int → List String → Nat → List String) : List String :=
  unreviewedNames s ++ reviewingNames s ++ masteredDueSortedNames s today ++
    backfillOf s today sample

/-- Result of init_today_tasks; backfilled records the sampled list. -/
structure TaskSet where
  tasks : List String
  completed : List String
  backfilled : List String
deriving Repr

/-- WordManager.init_today_tasks (lines 243-345).  sample models the
date-seeded random.sample draw; shuffle models the unseeded final
random.shuffle of line 345. -/
def initTodayTasks (s : Store) (today : Int)
    (sample : Int → List String → Nat → List String)
    (shuffle : List String → List String) : TaskSet :=
  { tasks := shuffle (preTasks s today sample),
    completed := completedInit s today ++ completedSampled s today sample,
    backfilled := backfillOf s today sample }

/-- In-memory state of WordManager: words, today_tasks, today_completed. -/
structure Manager where
  words : Store
  today_tasks : List String
  today_completed : List String
deriving Repr

/-- Python set.add on the completed list. -/
def setAdd (l : List String) (w : String) : List String :=
  if l.contains w then l else l ++ [w]

/-- WordManager.review_word (lines 201-210): review_count += 1, timestamps
updated, flag set, word added to today_completed. -/
def review_word (m : Manager) (w : String) (nowTs nowDate : Int) : Manager :=
  if m.words.any (fun p => p.1 == w) then
    { words := m.words.map (fun p =>
        if p.1 == w then
          (p.1, { p.2 with
                  review_count := p.2.review_count + 1,
                  last_review := some nowTs,
                  last_review_date := DateVal.valid nowDate,
                  today_reviewed := true })
        else p),
      today_tasks := m.today_tasks,
      today_completed := setAdd m.today_completed w }
  else m

/-- WordManager.mark_reviewed_without_count (lines 212-220): same updates
but review_count unchanged. -/
def mark_reviewed_without_count (m : Manager) (w : String)
    (nowTs nowDate : Int) : Manager :=
  if m.words.any (fun p => p.1 == w) then
    { words := m.words.map (fun p =>
        if p.1 == w then
          (p.1, { p.2 with
                  last_review := some nowTs,
                  last_review_date := DateVal.valid nowDate,
                  today_reviewed := true })
        else p),
      today_tasks := m.today_tasks,
      today_completed := setAdd m.today_completed w }
  else m

/-- WordManager.get_words_to_review (lines 239-241). -/
def get_words_to_review (m : Manager) : List String :=
  m.today_tasks.filter (fun x => !(m.today_completed.contains x))

/-- WordManager.delete_word (lines 222-227); tasks and completed are not
touched. -/
def delete_word (m : Manager) (w : String) : Manager :=
  if m.words.any (fun p => p.1 == w) then
    { m with words := m.words.filter (fun p => !(p.1 == w)) }
  else m

/-- Python str.strip() on the characters of a string. -/
def stripWs (s : List Char) : List Char :=
  ((s.dropWhile Char.isWhitespace).reverse.dropWhile Char.isWhitespace).reverse

/-- WordManager.add_word (lines 186-199), record shape of lines 189-196;
tasks and completed are not touched. -/
def add_word (m : Manager) (w : String) : Manager :=
  let w := String.mk (stripWs w.toList)
  if !(w == "") && !(m.words.any (fun p => p.1 == w)) then
    { m with words := m.words ++ [(w, ⟨0, none, DateVal.unset, false⟩)] }
  else m

/-- Normalization of MainWindow.fuzzy_match lines 1056-1057: lowercase and
remove every ASCII space (Python str.replace of a space by nothing). -/
def pyNormalize (s : List Char) : List Char :=
  (s.map Char.toLower).filter (fun c => !(c == ' '))

/-- Python substring containment (the in operator): the needle occurs
contiguously in the haystack; the empty needle always matches. -/
def isSubstr (needle hay : List Char) : Bool :=
  hay.tails.any (fun t => needle.isPrefixOf t)

/-- Prefix of a string strictly before the first occurrence of c (Python
s.split(c)[0]); the whole string when c is absent. -/
def beforeChar (c : Char) (s : List Char) : List Char :=
  s.takeWhile (fun x => !(x == c))

/-- keywords of line 1062: the original reference truncated at the first
full-width semicolon, full-width comma, enumeration comma and ASCII
semicolon in turn, then normalized (line 1063). -/
def keywordsOf (correct : List Char) : List Char :=
  pyNormalize (beforeChar ';' (beforeChar '、' (beforeChar '，' (beforeChar '；' correct))))

/-- Bigram scan of lines 1067-1069: some contiguous 2-character slice of
the normalized reference occurs in the normalized user text. -/
def bigramHit (correct_lower user : List Char) : Bool :=
  (correct_lower.zip correct_lower.tail).any (fun ab => isSubstr [ab.1, ab.2] user)

/-- Mutual-containment test of line 1059 on the normalized strings. -/
def rule2 (user correct : List Char) : Bool :=
  isSubstr (pyNormalize user) (pyNormalize correct) ||
  isSubstr (pyNormalize correct) (pyNormalize user)

/-- Primary-sense test of lines 1062-1064. -/
def rule3 (user correct : List Char) : Bool :=
  isSubstr (pyNormalize user) (keywordsOf correct) ||
  isSubstr (keywordsOf correct) (pyNormalize user)

/-- Bigram test of lines 1067-1069, guarded by len(user_input) >= 2. -/
def rule4 (user correct : List Char) : Bool :=
  decide (2 ≤ (pyNormalize user).length) &&
  bigramHit (pyNormalize correct) (pyNormalize user)

/-- MainWindow.fuzzy_match (lines 1055-1072): the three tests in order;
the chain of early returns equals this disjunction. -/
def fuzzy_match (user correct : String) : Bool :=
  rule2 user.toList correct.toList ||
  rule3 user.toList correct.toList ||
  rule4 user.toList correct.toList

/-- ASCII letter, the regex class A-Za-z. -/
def isAsciiAlpha (c : Char) : Bool :=
  (decide ('a' ≤ c) && decide (c ≤ 'z')) || (decide ('A' ≤ c) && decide (c ≤ 'Z'))

/-- Newline canonicalization of line 524: CRLF and lone CR become LF. -/
def fixNewlines : List Char → List Char
  | [] => []
  | '\r' :: '\n' :: rest => '\n' :: fixNewlines rest
  | '\r' :: rest => '\n' :: fixNewlines rest
  | c :: rest => c :: fixNewlines rest

/-- Split a character list at every character satisfying p.  The source
splits with a regex class followed by a plus; the plus only suppresses
the empty segments between adjacent delimiters, and every empty segment
is skipped by the caller, so candidate extraction is unchanged. -/
def splitBy (p : Char → Bool) (s : List Char) : List (List Char) :=
  s.foldr (fun c acc =>
    if p c then [] :: acc
    else match acc with
      | h :: t => (c :: h) :: t
      | [] => [[c]]) [[]]

/-- Delimiter class of line 534: comma, semicolon, full-width comma and
semicolon, tab, enumeration comma, slash, pipe. -/
def isDelim (c : Char) : Bool :=
  [',', ';', '，', '；', '\t', '、', '/', '|'].contains c

/-- State of the phrase-regex scan. -/
inductive PState where
  | start
  | alpha
  | ws
deriving DecidableEq

/-- Scan for the anchored regex of line 542: one alphabetic run, then one
or more groups of whitespace followed by an alphabetic run.  g counts the
alphabetic runs seen so far. -/
def phraseAux : List Char → PState → Nat → Bool
  | [], st, g => match st with
      | .alpha => decide (2 ≤ g)
      | _ => false
  | c :: r, st, g =>
    if isAsciiAlpha c then
      phraseAux r .alpha (match st with | .alpha => g | _ => g + 1)
    else if c.isWhitespace then
      match st with
      | .start => false
      | _ => phraseAux r .ws g
    else false

/-- Whole-string match of the phrase regex of line 542. -/
def isPhraseMatch (s : List Char) : Bool := phraseAux s .start 0

/-- Continuation of a token match: consume hyphen-or-apostrophe followed
by an alphabetic run, as long as possible (line 554).  Fuel bounds the
recursion by the input length. -/
def grabMore : Nat → List Char → List Char → List Char × List Char
  | 0, acc, s => (acc, s)
  | fuel + 1, acc, s =>
    match s with
    | c :: d :: rest =>
      if (c == '-' || c == Char.ofNat 39) && isAsciiAlpha d then
        grabMore fuel (acc ++ c :: (d :: rest).takeWhile isAsciiAlpha)
          ((d :: rest).dropWhile isAsciiAlpha)
      else (acc, s)
    | _ => (acc, s)

/-- Left-to-right scan collecting every maximal match of the token regex
of line 554: an alphabetic run with internal hyphen or apostrophe
separated alphabetic runs. -/
def findTokens : Nat → List Char → List (List Char)
  | 0, _ => []
  | fuel + 1, s =>
    match s with
    | [] => []
    | c :: rest =>
      if isAsciiAlpha c then
        let run := (c :: rest).takeWhile isAsciiAlpha
        let rem := (c :: rest).dropWhile isAsciiAlpha
        let tr := grabMore fuel run rem
        tr.1 :: findTokens fuel tr.2
      else findTokens fuel rest

/-- re.findall of the token regex over a string. -/
def pyFindall (s : List Char) : List (List Char) := findTokens s.length s

/-- Python str.strip with hyphen and apostrophe (line 556). -/
def stripHyphApos (s : List Char) : List Char :=
  let bad := fun c => c == '-' || c == Char.ofNat 39
  ((s.dropWhile bad).reverse.dropWhile bad).reverse

/-- Python str.isdigit: nonempty and all ASCII digits. -/
def isDigits (s : List Char) : Bool :=
  !s.isEmpty && s.all (fun c => decide ('0' ≤ c) && decide (c ≤ '9'))

/-- skip_words of lines 525-526, lowercased character lists. -/
def skipWords : List (List Char) :=
  [String.toList "单词", String.toList "word", String.toList "words",
   String.toList "词汇", String.toList "英语", String.toList "english",
   String.toList "vocabulary", String.toList "详细含义", String.toList "含义",
   String.toList "意思", String.toList "meaning", String.toList "definition"]

/-- Case-insensitive duplicate test against the store keys (lines 546,
558); the argument is the lowercased token. -/
def keyDup (keys : List String) (tokLower : List Char) : Bool :=
  keys.any (fun k => k.toList.map Char.toLower == tokLower)

/-- Python set.add on the result set of candidate tokens. -/
def setAddTok (ws : List (List Char)) (w : List Char) : List (List Char) :=
  if ws.contains w then ws else ws ++ [w]

/-- Token branch of lines 553-563 applied to one part. -/
def tokenStep (keys : List String) (ws : List (List Char))
    (tok : List Char) : List (List Char) :=
  let word := stripHyphApos tok
  let wl := word.map Char.toLower
  if decide (2 ≤ word.length) && !(isDigits word) &&
     !(skipWords.contains wl) && !(keyDup keys wl) then
    setAddTok ws word
  else ws

/-- Per-part step of lines 535-563: strip, skip empties, try the phrase
regex, else extract word tokens. -/
def partStep (keys : List String) (ws : List (List Char))
    (part : List Char) : List (List Char) :=
  let part := stripWs part
  if part.isEmpty then ws
  else if isPhraseMatch part then
    let pl := part.map Char.toLower
    if decide (3 ≤ part.length) && !(skipWords.contains pl) &&
       !(keyDup keys pl) then
      setAddTok ws part
    else ws
  else (pyFindall part).foldl (tokenStep keys) ws

/-- Per-line step of lines 528-563. -/
def lineStep (keys : List String) (ws : List (List Char))
    (line : List Char) : List (List Char) :=
  let line := stripWs line
  if line.isEmpty then ws
  else (splitBy isDelim line).foldl (partStep keys) ws

/-- WordManager.import_words_only (lines 520-564): candidate words of a
raw text against the store keys; the Python result set is modelled as a
duplicate-free list in first-insertion order (set order is unspecified
and no claim depends on it). -/
def import_words_only (keys : List String) (text : String) : List String :=
  let chars := fixNewlines text.toList
  ((splitBy (fun c => c == '\n') chars).foldl (lineStep keys) []).map String.mk

/-- Input text of the C9 scenario. -/
def c9Text : String := "apple, 苹果\napple,duplicate"

/-- Unreviewed record used in the concrete demonstrations. -/
def demoRec : WordRec := ⟨0, none, DateVal.unset, false⟩

/-- Deterministic stand-in for the seeded sampler in demonstrations: it
returns the first k candidates, hence k distinct members of the pool. -/
def demoSample : Int → List String → Nat → List String := fun _ c k => c.take k

/-- Demonstration store with two unreviewed words. -/
def demoStore : Store := [("alpha", demoRec), ("beta", demoRec)]

/-- A mastered record that is due (review_count 3, date never set). -/
def dueRec : WordRec := ⟨3, none, DateVal.unset, false⟩

/-- A mastered record reviewed yesterday relative to day 0, not due. -/
def notDueRec : WordRec := ⟨3, none, DateVal.valid (-1), false⟩

/-- Store with ten due mastered words and one not-due mastered word "k";
with ten due words the backfill branch is skipped, so "k" is not among
the day's tasks. -/
def cexStore : Store :=
  [("a", dueRec), ("b", dueRec), ("c", dueRec), ("d", dueRec), ("e", dueRec),
   ("f", dueRec), ("g", dueRec), ("h", dueRec), ("i", dueRec), ("j", dueRec),
   ("k", notDueRec)]

/-- Manager state right after building the daily task set for cexStore. -/
def cexManager : Manager :=
  { words := cexStore,
    today_tasks := (initTodayTasks cexStore 0 demoSample id).tasks,
    today_completed := (initTodayTasks cexStore 0 demoSample id).completed }

/-! Auxiliary lemmas. -/

theorem insertSorted_perm (x : String × WordRec) (l : Store) :
    List.Perm (insertSorted x l) (x :: l) := by
  induction l with
  | nil => simp [insertSorted]
  | cons y ys ih =>
    by_cases h : pairLt x y = true
    · simp [insertSorted, h]
    · simp only [insertSorted, h, if_neg, Bool.not_eq_true]
      exact (ih.cons y).trans (List.Perm.swap x y ys)

theorem sortPairs_perm (l : Store) : List.Perm (sortPairs l) l := by
  induction l with
  | nil => simp [sortPairs]
  | cons x xs ih => exact (insertSorted_perm x (sortPairs xs)).trans (ih.cons x)

theorem keysNodup_unique {s : Store} (hnd : keysNodup s) {w : String}
    {r r' : WordRec} (h1 : (w, r) ∈ s) (h2 : (w, r') ∈ s) : r = r' := by
  induction s with
  | nil => cases h1
  | cons p t ih =>
    have hnd' : p.1 ∉ t.map Prod.fst ∧ keysNodup t := by
      simpa [keysNodup] using hnd
    rcases List.mem_cons.mp h1 with h1 | h1 <;>
      rcases List.mem_cons.mp h2 with h2 | h2
    · exact ((Prod.mk.injEq _ _ _ _).mp (h1.trans h2.symm)).2
    · exact absurd (List.mem_map.mpr ⟨(w, r'), h2, by rw [← h1]⟩) hnd'.1
    · exact absurd (List.mem_map.mpr ⟨(w, r), h1, by rw [← h2]⟩) hnd'.1
    · exact ih hnd'.2 h1 h2

theorem mem_names_filter_iff {s : Store} (hnd : keysNodup s) {w : String}
    {r : WordRec} (hm : (w, r) ∈ s) (P : String × WordRec → Bool) :
    w ∈ (s.filter P).map Prod.fst ↔ P (w, r) = true := by
  constructor
  · intro h
    obtain ⟨p, hp, he⟩ := List.mem_map.mp h
    obtain ⟨hps, hPp⟩ := List.mem_filter.mp hp
    have hp2 : (w, p.2) ∈ s := by
      have : p = (w, p.2) := by rw [← he]
      rwa [this] at hps
    have : p.2 = r := keysNodup_unique hnd hp2 hm
    have hpw : p = (w, r) := by
      rw [← he, ← this]
    rwa [hpw] at hPp
  · intro h
    exact List.mem_map.mpr ⟨(w, r), List.mem_filter.mpr ⟨hm, h⟩, rfl⟩

theorem count_names_filter_zero (P : String × WordRec → Bool) (s : Store)
    (w : String) (hw : w ∉ s.map Prod.fst) :
    ((s.filter P).map Prod.fst).count w = 0 := by
  refine List.count_eq_zero.mpr ?_
  intro hmem
  obtain ⟨p, hp, he⟩ := List.mem_map.mp hmem
  exact hw (List.mem_map.mpr ⟨p, List.mem_filter.mp hp |>.1, he⟩)

theorem count_names_filter (P : String × WordRec → Bool) :
    ∀ (s : Store), keysNodup s → ∀ (w : String) (r : WordRec), (w, r) ∈ s →
      ((s.filter P).map Prod.fst).count w = if P (w, r) then 1 else 0 := by
  intro s
  induction s with
  | nil => intro _ w r hm; cases hm
  | cons p t ih =>
    intro hnd w r hm
    have hnd' : p.1 ∉ t.map Prod.fst ∧ keysNodup t := by
      simpa [keysNodup] using hnd
    rcases List.mem_cons.mp hm with hh | ht
    · have hp : p = (w, r) := hh.symm
      subst hp
      rw [List.filter_cons]
      by_cases hP : P (w, r) = true
      · rw [if_pos hP, List.map_cons, List.count_cons_self,
          count_names_filter_zero P t w hnd'.1, if_pos hP]
      · rw [if_neg hP, count_names_filter_zero P t w hnd'.1, if_neg hP]
    · have hpw : p.1 ≠ w := by
        intro he
        exact hnd'.1 (List.mem_map.mpr ⟨(w, r), ht, he.symm⟩)
      rw [List.filter_cons]
      by_cases hP : P p = true
      · rw [if_pos hP, List.map_cons, List.count_cons_of_ne hpw.symm,
          ih hnd'.2 w r ht]
      · rw [if_neg hP, ih hnd'.2 w r ht]

theorem candidatesOf_subset_mastered (s : Store) (today : Int) :
    ∀ x ∈ candidatesOf s today, x ∈ masteredNames s := by
  intro x hx
  obtain ⟨p, hp, he⟩ := List.mem_map.mp hx
  have hp1 : p ∈ sortPairs (notDuePairs s today) :=
    (List.take_sublist _ _).mem hp
  have hp2 : p ∈ notDuePairs s today := (sortPairs_perm _).mem_iff.mp hp1
  have hp3 : p ∈ masteredPairs s := List.mem_of_mem_filter hp2
  exact List.mem_map.mpr ⟨p, hp3, he⟩

theorem isPrefixOf_self (l : List Char) : l.isPrefixOf l = true := by
  induction l with
  | nil => rfl
  | cons c cs ih => simp [List.isPrefixOf, ih]

theorem isSubstr_self (l : List Char) : isSubstr l l = true := by
  cases l with
  | nil => rfl
  | cons c cs => simp [isSubstr, List.tails, isPrefixOf_self]

theorem isSubstr_nil_left (h : List Char) : isSubstr [] h = true := by
  cases h with
  | nil => rfl
  | cons c cs => simp [isSubstr, List.tails, List.isPrefixOf]

/-! Claim theorems. -/

/-- C1: when the daily task set is built, a mastered word (review_count at
least 3) with an unset stored date is classified due, a word whose stored
date fails to parse is classified due, and a word with a parseable stored
date is due exactly when today minus that date reaches the required
interval, the interval being 2 for review_count 3, 4 for 4, 7 for 5, 15
for 6 and 30 for review_count 7 or more; in particular a word with
review_count 6 last reviewed 15 days ago lands in the mastered-due
bucket. -/
theorem c1_mastered_due_classification :
    (∀ (s : Store) (today : Int) (w : String) (r : WordRec),
      (w, r) ∈ s → keysNodup s → 3 ≤ r.review_count →
      ((r.last_review_date = DateVal.unset → w ∈ masteredDueNames s today) ∧
       (r.last_review_date = DateVal.malformed → w ∈ masteredDueNames s today) ∧
       (∀ d : Int, r.last_review_date = DateVal.valid d →
        (w ∈ masteredDueNames s today ↔
          (requiredInterval r.review_count : Int) ≤ today - d)))) ∧
    requiredInterval 3 = 2 ∧ requiredInterval 4 = 4 ∧
    requiredInterval 5 = 7 ∧ requiredInterval 6 = 15 ∧
    (∀ n, 7 ≤ n → requiredInterval n = 30) ∧
    (∀ today : Int,
      "lucid" ∈ masteredDueNames
        [("lucid", ⟨6, none, DateVal.valid (today - 15), false⟩)] today) := by
  refine ⟨?_, rfl, rfl, rfl, rfl, ?_, ?_⟩
  · intro s today w r hm hnd h3
    have key := mem_names_filter_iff hnd hm (fun p =>
      decide (3 ≤ p.2.review_count) &&
      isDue today p.2.review_count p.2.last_review_date)
    refine ⟨?_, ?_, ?_⟩
    · intro hu
      exact key.mpr (by simp [isDue, hu, h3])
    · intro hu
      exact key.mpr (by simp [isDue, hu, h3])
    · intro d hd
      constructor
      · intro hw
        have hP := key.mp hw
        simpa [isDue, hd, h3] using hP
      · intro hle
        exact key.mpr (by simp [isDue, hd, h3, hle])
  · intro n hn
    simp only [requiredInterval]
    rw [if_neg (by omega), if_neg (by omega), if_neg (by omega),
      if_neg (by omega)]
  · intro today
    have h15 : today - (today - 15) = (15 : Int) := by omega
    simp [masteredDueNames, masteredDuePairs, isDue, h15, requiredInterval]

/-- Witness instantiating C1 at a one-word store with an unset date. -/
theorem c1_witness :
    "m" ∈ masteredDueNames [("m", ⟨4, none, DateVal.unset, false⟩)] 0 :=
  ((c1_mastered_due_classification.1
      [("m", ⟨4, none, DateVal.unset, false⟩)] 0 "m"
      ⟨4, none, DateVal.unset, false⟩ (by simp) (by simp [keysNodup])
      (by decide)).1 rfl)

/-- C8 counterexample: with review_count 3 the required interval is 2
days; a word last reviewed 3 days ago (today minus interval minus 1) is
classified due, and a word last reviewed 1 day ago (today minus interval
plus 1) is classified not due — the opposite of the claimed pattern. -/
theorem c8_monotonicity_counterexample :
    requiredInterval 3 = 2 ∧
    isDue 100 3 (DateVal.valid (100 - (requiredInterval 3 : Int) - 1)) = true ∧
    isDue 100 3 (DateVal.valid (100 - (requiredInterval 3 : Int) + 1)) = false := by
  decide

/-- C8 amended: a mastered word with last_review_date equal to today minus
its required interval is due, an older date (today minus interval minus
1) is also due, and a younger date (today minus interval plus 1) is not
due. -/
theorem c8_due_boundaries_amended :
    ∀ (today : Int) (r : Nat), 3 ≤ r →
      isDue today r (DateVal.valid (today - (requiredInterval r : Int))) = true ∧
      isDue today r (DateVal.valid (today - (requiredInterval r : Int) - 1)) = true ∧
      isDue today r (DateVal.valid (today - (requiredInterval r : Int) + 1)) = false := by
  intro today r _
  refine ⟨?_, ?_, ?_⟩ <;> simp [isDue] <;> omega

/-- Witness instantiating the amended C8 at today 100, review_count 3. -/
theorem c8_witness :
    isDue 100 3 (DateVal.valid (100 - (requiredInterval 3 : Int))) = true ∧
    isDue 100 3 (DateVal.valid (100 - (requiredInterval 3 : Int) - 1)) = true ∧
    isDue 100 3 (DateVal.valid (100 - (requiredInterval 3 : Int) + 1)) = false :=
  c8_due_boundaries_amended 100 3 (by decide)

/-- C6 counterexample: the empty user answer matches the reference
"abc" even though "abc" does not normalize to the empty string — the
empty normalized input is a Python substring of everything, so the first
containment test always succeeds. -/
theorem c6_empty_answer_counterexample :
    fuzzy_match "" "abc" = true ∧ pyNormalize "abc".toList ≠ [] := by decide

/-- C6 amended: matches(reference, reference) is true for every non-empty
reference, and matches of the empty answer against any reference is true
(not false), because the empty normalized input is contained in every
normalized reference. -/
theorem c6_matcher_roundtrip_amended :
    ∀ (r u : String),
      (r ≠ "" → fuzzy_match r r = true) ∧ fuzzy_match "" u = true := by
  intro r u
  constructor
  · intro _
    simp only [fuzzy_match]
    have h2 : rule2 r.toList r.toList = true := by
      unfold rule2
      rw [isSubstr_self]
      rfl
    rw [h2]
    rfl
  · simp only [fuzzy_match]
    have h2 : rule2 "".toList u.toList = true := by
      unfold rule2
      rw [show pyNormalize "".toList = [] from rfl, isSubstr_nil_left]
      rfl
    rw [h2]
    rfl

/-- Witness instantiating the amended C6 at a concrete reference. -/
theorem c6_witness : fuzzy_match "cat" "cat" = true :=
  (c6_matcher_roundtrip_amended "cat" "cat").1 (by decide)

/-- C7 counterexample: on matches("blue color", "a shade of blue; color
term") the primary-sense test fails: the kept segment normalizes to
"ashadeofblue", which neither contains nor is contained in "bluecolor",
so the claimed rule-3 success is wrong. -/
theorem c7_rule3_counterexample :
    rule3 "blue color".toList "a shade of blue; color term".toList = false ∧
    keywordsOf "a shade of blue; color term".toList = "ashadeofblue".toList := by
  decide

/-- C7 amended: matches("blue color", "a shade of blue; color term") is
true and the split does keep the segment before the semicolon, but both
containment tests fail and the success comes from the bigram overlap
test (rule 4). -/
theorem c7_scenario_amended :
    fuzzy_match "blue color" "a shade of blue; color term" = true ∧
    rule2 "blue color".toList "a shade of blue; color term".toList = false ∧
    rule3 "blue color".toList "a shade of blue; color term".toList = false ∧
    rule4 "blue color".toList "a shade of blue; color term".toList = true ∧
    keywordsOf "a shade of blue; color term".toList = "ashadeofblue".toList := by
  decide

/-- C9 counterexample: against an empty store the batch also yields the
candidate "duplicate" from the second line, so it does not reduce to the
single candidate "apple". -/
theorem c9_duplicate_counterexample :
    "duplicate" ∈ import_words_only [] c9Text ∧
    2 ≤ (import_words_only [] c9Text).length := by decide

/-- C9 amended: against an empty store the batch yields exactly two
candidates, "apple" and "duplicate": the repeated token "apple" is
deduplicated within the batch, the Chinese text contributes no
candidate, and "duplicate" is extracted as an ordinary word token. -/
theorem c9_extractor_amended :
    (import_words_only [] c9Text).length = 2 ∧
    "apple" ∈ import_words_only [] c9Text ∧
    "duplicate" ∈ import_words_only [] c9Text := by decide

theorem findRec_update (f : WordRec → WordRec) :
    ∀ (l : Store), keysNodup l → ∀ (w : String) (r : WordRec), (w, r) ∈ l →
      findRec (l.map (fun p => if p.1 == w then (p.1, f p.2) else p)) w =
        some (f r) := by
  intro l
  induction l with
  | nil => intro _ w r hm; cases hm
  | cons p t ih =>
    intro hnd w r hm
    have hnd' : p.1 ∉ t.map Prod.fst ∧ keysNodup t := by
      simpa [keysNodup] using hnd
    rcases List.mem_cons.mp hm with hh | ht
    · have hp : p = (w, r) := hh.symm
      subst hp
      simp [findRec, List.find?]
    · have hpw : p.1 ≠ w :=
        fun he => hnd'.1 (List.mem_map.mpr ⟨(w, r), ht, he.symm⟩)
      have hbeq : (p.1 == w) = false := by simpa using hpw
      simp only [List.map_cons, hbeq, Bool.false_eq_true, if_false]
      show findRec (p :: _) w = some (f r)
      unfold findRec
      rw [List.find?_cons_of_neg _ (by simp [hbeq])]
      exact ih hnd'.2 w r ht

theorem mem_setAdd_self (l : List String) (w : String) : w ∈ setAdd l w := by
  unfold setAdd
  by_cases h : l.contains w = true
  · rw [if_pos h]
    simpa using h
  · rw [if_neg h]
    exact List.mem_append_right _ (List.mem_singleton.mpr rfl)

theorem not_mem_pool_of_completed (m : Manager) (w : String)
    (hw : w ∈ m.today_completed) : w ∉ get_words_to_review m := by
  intro hmem
  have h := List.mem_filter.mp hmem
  simp only [Bool.not_eq_true'] at h
  have : w ∉ m.today_completed := by simpa using h.2
  exact this hw

/-- C5: grading a stored word as Known increments review_count by 1, sets
the timestamp, the derived date and the reviewed_today flag, and adds the
word to completed (so it leaves the remaining pool); grading it as
Unknown performs the same updates except that review_count is unchanged;
in particular Known on a word with review_count 2 yields 3 and Unknown
leaves it at 2. -/
theorem c5_grading_semantics :
    ∀ (m : Manager) (w : String) (r : WordRec) (nowTs nowDate : Int),
      (w, r) ∈ m.words → keysNodup m.words →
      (findRec (review_word m w nowTs nowDate).words w =
        some { review_count := r.review_count + 1, last_review := some nowTs,
               last_review_date := DateVal.valid nowDate,
               today_reviewed := true } ∧
       w ∈ (review_word m w nowTs nowDate).today_completed ∧
       (review_word m w nowTs nowDate).today_tasks = m.today_tasks ∧
       w ∉ get_words_to_review (review_word m w nowTs nowDate)) ∧
      (findRec (mark_reviewed_without_count m w nowTs nowDate).words w =
        some { review_count := r.review_count, last_review := some nowTs,
               last_review_date := DateVal.valid nowDate,
               today_reviewed := true } ∧
       w ∈ (mark_reviewed_without_count m w nowTs nowDate).today_completed ∧
       w ∉ get_words_to_review (mark_reviewed_without_count m w nowTs nowDate)) ∧
      (r.review_count = 2 →
        (findRec (review_word m w nowTs nowDate).words w).map
            WordRec.review_count = some 3 ∧
        (findRec (mark_reviewed_without_count m w nowTs nowDate).words w).map
            WordRec.review_count = some 2) := by
  intro m w r nowTs nowDate hm hnd
  have hany : (m.words.any (fun p => p.1 == w)) = true :=
    List.any_eq_true.mpr ⟨(w, r), hm, by simp⟩
  have hk : findRec (review_word m w nowTs nowDate).words w =
      some { review_count := r.review_count + 1, last_review := some nowTs,
             last_review_date := DateVal.valid nowDate,
             today_reviewed := true } := by
    simp only [review_word, hany, if_true]
    exact findRec_update (fun q =>
      { review_count := q.review_count + 1, last_review := some nowTs,
        last_review_date := DateVal.valid nowDate, today_reviewed := true })
      m.words hnd w r hm
  have hku : findRec (mark_reviewed_without_count m w nowTs nowDate).words w =
      some { review_count := r.review_count, last_review := some nowTs,
             last_review_date := DateVal.valid nowDate,
             today_reviewed := true } := by
    simp only [mark_reviewed_without_count, hany, if_true]
    exact findRec_update (fun q =>
      { review_count := q.review_count, last_review := some nowTs,
        last_review_date := DateVal.valid nowDate, today_reviewed := true })
      m.words hnd w r hm
  have hcw : w ∈ (review_word m w nowTs nowDate).today_completed := by
    simp only [review_word, hany, if_true]
    exact mem_setAdd_self _ _
  have hcwu : w ∈ (mark_reviewed_without_count m w nowTs nowDate).today_completed := by
    simp only [mark_reviewed_without_count, hany, if_true]
    exact mem_setAdd_self _ _
  refine ⟨⟨hk, hcw, ?_, not_mem_pool_of_completed _ _ hcw⟩,
    ⟨hku, hcwu, not_mem_pool_of_completed _ _ hcwu⟩, ?_⟩
  · simp [review_word, hany]
  · intro h2
    rw [hk, hku, h2]
    exact ⟨rfl, rfl⟩

/-- Witness instantiating C5 at a one-word store with review_count 2. -/
theorem c5_witness :
    findRec (review_word
        { words := [("w", ⟨2, none, DateVal.unset, false⟩)],
          today_tasks := ["w"], today_completed := [] } "w" 7 3).words "w" =
      some ⟨3, some 7, DateVal.valid 3, true⟩ ∧
    findRec (mark_reviewed_without_count
        { words := [("w", ⟨2, none, DateVal.unset, false⟩)],
          today_tasks := ["w"], today_completed := [] } "w" 7 3).words "w" =
      some ⟨2, some 7, DateVal.valid 3, true⟩ :=
  ⟨((c5_grading_semantics
      { words := [("w", ⟨2, none, DateVal.unset, false⟩)],
        today_tasks := ["w"], today_completed := [] } "w"
      ⟨2, none, DateVal.unset, false⟩ 7 3 (by simp) (by simp [keysNodup])).1).1,
   ((c5_grading_semantics
      { words := [("w", ⟨2, none, DateVal.unset, false⟩)],
        today_tasks := ["w"], today_completed := [] } "w"
      ⟨2, none, DateVal.unset, false⟩ 7 3 (by simp) (by simp [keysNodup])).2).1.1⟩

/-- C4: two builds of the daily task set from the same store contents on
the same date, with the same date-seeded sampler but different unseeded
shuffles, produce the same backfilled list, and task sequences that are
permutations of each other; the concrete part shows the presentation
order can indeed differ between the two runs while the backfill agrees. -/
theorem c4_backfill_determinism :
    (∀ (s : Store) (today : Int)
       (sample : Int → List String → Nat → List String)
       (shuffle1 shuffle2 : List String → List String),
      (∀ l, List.Perm (shuffle1 l) l) → (∀ l, List.Perm (shuffle2 l) l) →
      (initTodayTasks s today sample shuffle1).backfilled =
        (initTodayTasks s today sample shuffle2).backfilled ∧
      List.Perm (initTodayTasks s today sample shuffle1).tasks
        (initTodayTasks s today sample shuffle2).tasks) ∧
    ((initTodayTasks demoStore 0 demoSample id).backfilled =
       (initTodayTasks demoStore 0 demoSample List.reverse).backfilled ∧
     (initTodayTasks demoStore 0 demoSample id).tasks ≠
       (initTodayTasks demoStore 0 demoSample List.reverse).tasks) := by
  refine ⟨?_, by decide, by decide⟩
  intro s today sample shuffle1 shuffle2 h1 h2
  exact ⟨rfl, (h1 _).trans (h2 _).symm⟩

/-- Witness instantiating C4 with the identity shuffle on both runs. -/
theorem c4_witness :
    (initTodayTasks demoStore 0 demoSample id).backfilled =
      (initTodayTasks demoStore 0 demoSample id).backfilled ∧
    List.Perm (initTodayTasks demoStore 0 demoSample id).tasks
      (initTodayTasks demoStore 0 demoSample id).tasks :=
  c4_backfill_determinism.1 demoStore 0 demoSample id id
    (fun l => List.Perm.refl l) (fun l => List.Perm.refl l)

/-- C10 counterexample: grading the stored word "k", which is not in the
current task list, still adds it to completed, so after the grade the
completed set is no longer a subset of the task list. -/
theorem c10_subset_counterexample :
    ¬ (∀ x ∈ (review_word cexManager "k" 5 0).today_completed,
        x ∈ (review_word cexManager "k" 5 0).today_tasks) := by decide

theorem setAdd_subset {completed tasks : List String} {w : String}
    (hsub : ∀ x ∈ completed, x ∈ tasks) (hw : w ∈ tasks) :
    ∀ x ∈ setAdd completed w, x ∈ tasks := by
  intro x hx
  unfold setAdd at hx
  by_cases hc : completed.contains w = true
  · rw [if_pos hc] at hx
    exact hsub x hx
  · rw [if_neg hc] at hx
    rcases List.mem_append.mp hx with h | h
    · exact hsub x h
    · rw [List.mem_singleton.mp h]
      exact hw

/-- C10 amended: building the daily task set establishes completed as a
subset of tasks, and grading Known or Unknown preserves the subset
whenever the graded word is in the task list or absent from the store;
grading a stored word outside the task list adds it to completed and can
break the subset, as the counterexample shows.  Adding and deleting
words leave tasks and completed untouched and preserve the subset. -/
theorem c10_completed_subset_amended :
    (∀ (s : Store) (today : Int)
       (sample : Int → List String → Nat → List String)
       (shuffle : List String → List String),
      (∀ l, List.Perm (shuffle l) l) →
      ∀ x ∈ (initTodayTasks s today sample shuffle).completed,
        x ∈ (initTodayTasks s today sample shuffle).tasks) ∧
    (∀ (m : Manager) (w : String) (nowTs nowDate : Int),
      (∀ x ∈ m.today_completed, x ∈ m.today_tasks) →
      (w ∈ m.today_tasks ∨ w ∉ m.words.map Prod.fst) →
      (∀ x ∈ (review_word m w nowTs nowDate).today_completed,
        x ∈ (review_word m w nowTs nowDate).today_tasks) ∧
      (∀ x ∈ (mark_reviewed_without_count m w nowTs nowDate).today_completed,
        x ∈ (mark_reviewed_without_count m w nowTs nowDate).today_tasks)) ∧
    (∀ (m : Manager) (w : String),
      (∀ x ∈ m.today_completed, x ∈ m.today_tasks) →
      (∀ x ∈ (delete_word m w).today_completed,
        x ∈ (delete_word m w).today_tasks) ∧
      (∀ x ∈ (add_word m w).today_completed,
        x ∈ (add_word m w).today_tasks)) := by
  refine ⟨?_, ?_, ?_⟩
  · intro s today sample shuffle hshuf x hx
    have hpre : x ∈ preTasks s today sample := by
      rcases List.mem_append.mp hx with hci | hcs
      · obtain ⟨p, hp, he⟩ := List.mem_map.mp hci
        obtain ⟨hps, hPp⟩ := List.mem_filter.mp hp
        have hband := (Bool.and_eq_true _ _).mp hPp
        rcases (Bool.or_eq_true _ _).mp hband.1 with hlow | hdue
        · have hlt : p.2.review_count < 3 := of_decide_eq_true hlow
          rcases Nat.eq_zero_or_pos p.2.review_count with h0 | hpos
          · have : x ∈ unreviewedNames s :=
              List.mem_map.mpr ⟨p, List.mem_filter.mpr ⟨hps, by simp [h0]⟩, he⟩
            exact List.mem_append.mpr (Or.inl (List.mem_append.mpr (Or.inl
              (List.mem_append.mpr (Or.inl this)))))
          · have : x ∈ reviewingNames s :=
              List.mem_map.mpr ⟨p, List.mem_filter.mpr ⟨hps, by
                simp only [Bool.and_eq_true, decide_eq_true_eq]
                exact ⟨hpos, hlt⟩⟩, he⟩
            exact List.mem_append.mpr (Or.inl (List.mem_append.mpr (Or.inl
              (List.mem_append.mpr (Or.inr this)))))
        · have hps2 : p ∈ masteredDuePairs s today :=
            List.mem_filter.mpr ⟨hps, hdue⟩
          have : x ∈ masteredDueSortedNames s today :=
            List.mem_map.mpr ⟨p, (sortPairs_perm _).mem_iff.mpr hps2, he⟩
          exact List.mem_append.mpr (Or.inl (List.mem_append.mpr (Or.inr this)))
      · have : x ∈ backfillOf s today sample :=
          List.mem_of_mem_filter hcs
        exact List.mem_append.mpr (Or.inr this)
    exact ((hshuf (preTasks s today sample)).mem_iff).mpr hpre
  · intro m w nowTs nowDate hsub hip
    by_cases hany : (m.words.any (fun p => p.1 == w)) = true
    · have hw : w ∈ m.today_tasks := by
        rcases hip with h | h
        · exact h
        · obtain ⟨p, hp, hbeq⟩ := List.any_eq_true.mp hany
          exact absurd (List.mem_map.mpr ⟨p, hp, by simpa using hbeq⟩) h
      constructor
      · simp only [review_word, hany, if_true]
        exact setAdd_subset hsub hw
      · simp only [mark_reviewed_without_count, hany, if_true]
        exact setAdd_subset hsub hw
    · constructor
      · simp only [review_word, hany, if_false, Bool.false_eq_true]
        exact hsub
      · simp only [mark_reviewed_without_count, hany, if_false,
          Bool.false_eq_true]
        exact hsub
  · intro m w hsub
    constructor
    · by_cases hany : (m.words.any (fun p => p.1 == w)) = true
      · simp only [delete_word, hany, if_true]
        exact hsub
      · simp only [delete_word, hany, if_false, Bool.false_eq_true]
        exact hsub
    · unfold add_word
      by_cases hg : (!(String.mk (stripWs w.toList) == "") &&
          !(m.words.any (fun p => p.1 == String.mk (stripWs w.toList)))) = true
      · rw [if_pos hg]
        exact hsub
      · rw [if_neg hg]
        exact hsub

/-- Witness instantiating the amended C10 at the demonstration store. -/
theorem c10_witness :
    ∀ x ∈ (initTodayTasks demoStore 0 demoSample id).completed,
      x ∈ (initTodayTasks demoStore 0 demoSample id).tasks :=
  c10_completed_subset_amended.1 demoStore 0 demoSample id
    (fun l => List.Perm.refl l)

theorem backfill_subset_mastered (s : Store) (today : Int)
    (sample : Int → List String → Nat → List String)
    (hsub : ∀ t c k, ∀ x ∈ sample t c k, x ∈ c) :
    ∀ x ∈ backfillOf s today sample, x ∈ masteredNames s := by
  intro x hx
  unfold backfillOf at hx
  by_cases hb : doBackfill s today = true
  · rw [if_pos hb] at hx
    exact candidatesOf_subset_mastered s today x (hsub _ _ _ x hx)
  · rw [if_neg hb] at hx
    cases hx

/-- C2: for every store with distinct keys, every date and every
admissible sampler and shuffle, every word whose record has review_count
below 3 appears in the day's task sequence exactly once: never omitted,
never capped and never duplicated, whatever its stored date. -/
theorem c2_low_count_exactly_once :
    ∀ (s : Store) (today : Int)
      (sample : Int → List String → Nat → List String)
      (shuffle : List String → List String),
      keysNodup s →
      (∀ (t : Int) (c : List String) (k : Nat), ∀ x ∈ sample t c k, x ∈ c) →
      (∀ l, List.Perm (shuffle l) l) →
      ∀ (w : String) (r : WordRec), (w, r) ∈ s → r.review_count < 3 →
        (initTodayTasks s today sample shuffle).tasks.count w = 1 := by
  intro s today sample shuffle hnd hsub hshuf w r hm hlt
  have hcount : (initTodayTasks s today sample shuffle).tasks.count w =
      (preTasks s today sample).count w := (hshuf _).count_eq w
  rw [hcount]
  unfold preTasks
  rw [List.count_append, List.count_append, List.count_append]
  have hA : (unreviewedNames s).count w =
      if decide (r.review_count = 0) then 1 else 0 :=
    count_names_filter _ s hnd w r hm
  have hB : (reviewingNames s).count w =
      if decide (0 < r.review_count) && decide (r.review_count < 3)
      then 1 else 0 :=
    count_names_filter _ s hnd w r hm
  have hCperm : List.Perm (masteredDueSortedNames s today)
      (masteredDueNames s today) :=
    (sortPairs_perm (masteredDuePairs s today)).map Prod.fst
  have hC : (masteredDueSortedNames s today).count w = 0 := by
    rw [hCperm.count_eq]
    have hcnt : (masteredDueNames s today).count w =
        if decide (3 ≤ r.review_count) &&
           isDue today r.review_count r.last_review_date
        then 1 else 0 :=
      count_names_filter _ s hnd w r hm
    rw [hcnt]
    have : decide (3 ≤ r.review_count) = false := by
      simp
      omega
    simp [this]
  have hD : (backfillOf s today sample).count w = 0 := by
    refine List.count_eq_zero.mpr ?_
    intro hmem
    have hx := backfill_subset_mastered s today sample hsub w hmem
    have hP := (mem_names_filter_iff hnd hm
      (fun p => decide (3 ≤ p.2.review_count))).mp hx
    simp only [decide_eq_true_eq] at hP
    omega
  rw [hA, hB, hC, hD]
  by_cases h0 : r.review_count = 0
  · simp [h0]
  · have hpos : 0 < r.review_count := Nat.pos_of_ne_zero h0
    simp [h0, hpos, hlt]

/-- Witness instantiating C2 at the demonstration store. -/
theorem c2_witness :
    (initTodayTasks demoStore 0 demoSample id).tasks.count "alpha" = 1 :=
  c2_low_count_exactly_once demoStore 0 demoSample id
    (by show (demoStore.map Prod.fst).Nodup; decide)
    (fun t c k x hx => (List.take_sublist k c).mem hx)
    (fun l => List.Perm.refl l) "alpha" demoRec (by decide) (by decide)

/-- C3: every mastered-due word is placed in the tasks; the due count
plus the backfilled count stays within max(due count, 10); the backfill
never exceeds the available mastered-not-due pool, never runs when ten
or more words are due, draws from the first max(10, pool length / 3)
entries of the (review_count, word)-ascending sort, samples
min(10 - due count, candidate count) words, and the sampled words are
distinct. -/
theorem c3_mastery_cap :
    ∀ (s : Store) (today : Int)
      (sample : Int → List String → Nat → List String)
      (shuffle : List String → List String),
      keysNodup s →
      (∀ (t : Int) (c : List String) (k : Nat), k ≤ c.length →
        (sample t c k).length = k) →
      (∀ (t : Int) (c : List String) (k : Nat), c.Nodup →
        (sample t c k).Nodup) →
      (∀ l, List.Perm (shuffle l) l) →
      ((masteredDueNames s today).length +
          (initTodayTasks s today sample shuffle).backfilled.length ≤
        max (masteredDueNames s today).length 10) ∧
      ((initTodayTasks s today sample shuffle).backfilled.length ≤
        (notDuePairs s today).length) ∧
      (10 ≤ (masteredDueNames s today).length →
        (initTodayTasks s today sample shuffle).backfilled = []) ∧
      (doBackfill s today = true →
        (initTodayTasks s today sample shuffle).backfilled =
          sample today (candidatesOf s today)
            (min (10 - (masteredDueNames s today).length)
              (candidatesOf s today).length)) ∧
      (candidatesOf s today =
        ((sortPairs (notDuePairs s today)).take
          (max 10 ((notDuePairs s today).length / 3))).map Prod.fst) ∧
      (initTodayTasks s today sample shuffle).backfilled.Nodup ∧
      (∀ w ∈ masteredDueNames s today,
        w ∈ (initTodayTasks s today sample shuffle).tasks) := by
  intro s today sample shuffle hnd hlen hsnodup hshuf
  have hbf : (initTodayTasks s today sample shuffle).backfilled =
      backfillOf s today sample := rfl
  have hclen : (candidatesOf s today).length ≤ (notDuePairs s today).length := by
    unfold candidatesOf
    rw [List.length_map, List.length_take]
    calc min (candidateCountOf s today) (sortPairs (notDuePairs s today)).length
        ≤ (sortPairs (notDuePairs s today)).length := Nat.min_le_right _ _
      _ = (notDuePairs s today).length := (sortPairs_perm _).length_eq
  have hlenOf : doBackfill s today = true →
      (backfillOf s today sample).length = sampleCountOf s today := by
    intro hb
    unfold backfillOf
    rw [if_pos hb]
    exact hlen today _ _ (Nat.min_le_right _ _)
  have hnil : doBackfill s today = false → backfillOf s today sample = [] := by
    intro hb
    unfold backfillOf
    rw [if_neg (by simp [hb])]
  refine ⟨?_, ?_, ?_, ?_, rfl, ?_, ?_⟩
  · rw [hbf]
    by_cases hb : doBackfill s today = true
    · have hd10 : (masteredDueNames s today).length < 10 := by
        have := ((Bool.and_eq_true _ _).mp
          (((Bool.and_eq_true _ _).mp hb).1)).1
        exact of_decide_eq_true this
      rw [hlenOf hb]
      unfold sampleCountOf
      have h1 : (masteredDueNames s today).length +
          min (10 - (masteredDueNames s today).length)
            (candidatesOf s today).length ≤ 10 := by omega
      exact le_trans h1 (Nat.le_max_right _ _)
    · rw [hnil (Bool.not_eq_true _ |>.mp hb)]
      simp only [List.length_nil, Nat.add_zero]
      exact Nat.le_max_left (masteredDueNames s today).length 10
  · rw [hbf]
    by_cases hb : doBackfill s today = true
    · rw [hlenOf hb]
      exact le_trans (Nat.min_le_right _ _) hclen
    · rw [hnil (Bool.not_eq_true _ |>.mp hb)]
      simp
  · intro h10
    rw [hbf]
    apply hnil
    unfold doBackfill
    have : decide ((masteredDueNames s today).length < 10) = false := by
      simp
      omega
    simp [this]
  · intro hb
    rw [hbf]
    unfold backfillOf
    rw [if_pos hb]
    rfl
  · rw [hbf]
    by_cases hb : doBackfill s today = true
    · unfold backfillOf
      rw [if_pos hb]
      apply hsnodup
      have hmn : (masteredNames s).Nodup :=
        ((List.filter_sublist s).map Prod.fst).nodup hnd
      have hndn : ((notDuePairs s today).map Prod.fst).Nodup :=
        ((List.filter_sublist (masteredPairs s)).map Prod.fst).nodup hmn
      have hsortn : ((sortPairs (notDuePairs s today)).map Prod.fst).Nodup :=
        ((sortPairs_perm (notDuePairs s today)).map Prod.fst).nodup_iff.mpr hndn
      exact ((List.take_sublist _ _).map Prod.fst).nodup hsortn
    · rw [hnil (Bool.not_eq_true _ |>.mp hb)]
      simp
  · intro w hw
    have hsorted : w ∈ masteredDueSortedNames s today :=
      ((sortPairs_perm (masteredDuePairs s today)).map Prod.fst).mem_iff.mpr hw
    have hpre : w ∈ preTasks s today sample := by
      unfold preTasks
      exact List.mem_append.mpr (Or.inl (List.mem_append.mpr (Or.inr hsorted)))
    exact ((hshuf (preTasks s today sample)).mem_iff).mpr hpre

/-- Witness instantiating C3 at the demonstration store. -/
theorem c3_witness :
    ((masteredDueNames demoStore 0).length +
        (initTodayTasks demoStore 0 demoSample id).backfilled.length ≤
      max (masteredDueNames demoStore 0).length 10) ∧
    ((initTodayTasks demoStore 0 demoSample id).backfilled.length ≤
      (notDuePairs demoStore 0).length) ∧
    (10 ≤ (masteredDueNames demoStore 0).length →
      (initTodayTasks demoStore 0 demoSample id).backfilled = []) ∧
    (doBackfill demoStore 0 = true →
      (initTodayTasks demoStore 0 demoSample id).backfilled =
        demoSample 0 (candidatesOf demoStore 0)
          (min (10 - (masteredDueNames demoStore 0).length)
            (candidatesOf demoStore 0).length)) ∧
    (candidatesOf demoStore 0 =
      ((sortPairs (notDuePairs demoStore 0)).take
        (max 10 ((notDuePairs demoStore 0).length / 3))).map Prod.fst) ∧
    (initTodayTasks demoStore 0 demoSample id).backfilled.Nodup ∧
    (∀ w ∈ masteredDueNames demoStore 0,
      w ∈ (initTodayTasks demoStore 0 demoSample id).tasks) :=
  c3_mastery_cap demoStore 0 demoSample id
    (by show (demoStore.map Prod.fst).Nodup; decide)
    (fun t c k hk => by simp only [demoSample, List.length_take]; omega)
    (fun t c k hc => (List.take_sublist k c).nodup hc)
    (fun l => List.Perm.refl l)

end WordApp
